import Mathlib

/-!
Verification of the Hermes compatibility shim (`src/hermes-globals.js`):
a shallow embedding of its console formatter, timer-label bookkeeping,
interval scheduler, performance instrumentation and process descriptor,
together with theorems settling the specified behaviours.

Conventions of the embedding:
* JS wall-clock readings (`Date.now()`) are modelled as `Int` parameters
  supplied by the caller; the code never relies on more than their values.
* JS `Map` objects are modelled as association lists with unique keys
  (`List (String × Int)` etc.); `Map.get` is `List.lookup`, `Map.set`
  replaces-or-appends, `Map.delete` filters the key out.
* Printed output is modelled as the list of lines handed to the engine's
  `print` primitive.
-/

/-- JSON trees, the acyclic object structures `JSON.stringify` succeeds on. -/
inductive Json where
  | jnull
  | jbool (b : Bool)
  | jnum (n : Int)
  | jstr (s : String)
  | jarr (items : List Json)
  | jobj (fields : List (String × Json))

/-- The JavaScript values distinguished by `formatConsoleArgs` in
`src/hermes-globals.js` lines 3–25.  A function value carries its `name`
property (the empty string for an anonymous function); an object value
carries its JSON structure; `vcyclic` stands for an object whose
serialization throws (a self-referential structure), the case the source
catches.  The source's final `return String(arg)` branch (symbols,
bigints) is unreachable for these constructors and not modelled. -/
inductive JSVal where
  | vnull
  | vundefined
  | vstr (s : String)
  | vnum (n : Int)
  | vbool (b : Bool)
  | vfunc (name : String)
  | vobj (j : Json)
  | vcyclic

/-- JSON string quoting: wrap in double quotes, escaping the characters
`JSON.stringify` escapes (quote, backslash, and common control characters). -/
def jsonQuote (s : String) : String :=
  "\"" ++ String.join (s.toList.map (fun c =>
    if c = '"' then "\\\""
    else if c = '\\' then "\\\\"
    else if c = '\n' then "\\n"
    else if c = '\t' then "\\t"
    else if c = '\r' then "\\r"
    else String.singleton c)) ++ "\""

/-- The indentation string at nesting depth `d` produced by
`JSON.stringify(arg, null, 2)`: `d` copies of two spaces. -/
def jsonIndent (d : Nat) : String :=
  String.join (List.replicate d "  ")

mutual

/-- `JSON.stringify(j, null, 2)` at nesting depth `d` (the root call has
`d = 0`): primitives print inline; a non-empty array or object opens its
bracket, lists each entry on its own line indented to depth `d + 1`, and
closes the bracket indented to depth `d`. -/
def jsonStringify (d : Nat) : Json → String
  | Json.jnull => "null"
  | Json.jbool b => if b then "true" else "false"
  | Json.jnum n => toString n
  | Json.jstr s => jsonQuote s
  | Json.jarr [] => "[]"
  | Json.jarr (x :: xs) =>
      "[\n" ++ jsonIndent (d + 1) ++
      String.intercalate (",\n" ++ jsonIndent (d + 1)) (jsonStringifyList (d + 1) (x :: xs)) ++
      "\n" ++ jsonIndent d ++ "]"
  | Json.jobj [] => "\x7b\x7d"
  | Json.jobj (f :: fs) =>
      "\x7b\n" ++ jsonIndent (d + 1) ++
      String.intercalate (",\n" ++ jsonIndent (d + 1)) (jsonStringifyFields (d + 1) (f :: fs)) ++
      "\n" ++ jsonIndent d ++ "\x7d"

/-- Stringify each array element at depth `d`. -/
def jsonStringifyList (d : Nat) : List Json → List String
  | [] => []
  | x :: xs => jsonStringify d x :: jsonStringifyList d xs

/-- Stringify each object field at depth `d` as `"key": value`. -/
def jsonStringifyFields (d : Nat) : List (String × Json) → List String
  | [] => []
  | (k, v) :: fs => (jsonQuote k ++ ": " ++ jsonStringify d v) :: jsonStringifyFields d fs

end

/-- The per-value branch of `formatConsoleArgs` (`src/hermes-globals.js`
lines 5–23): null and undefined become literals, strings pass through,
numbers and booleans take their default string conversion, a function
becomes `[Function: <name or anonymous>]` (the `arg.name || "anonymous"`
fallback fires exactly on the empty name), an object is serialized with
`JSON.stringify(arg, null, 2)`, and a failing serialization falls back to
`[object Object]`. -/
def formatArg : JSVal → String
  | JSVal.vnull => "null"
  | JSVal.vundefined => "undefined"
  | JSVal.vstr s => s
  | JSVal.vnum n => toString n
  | JSVal.vbool b => if b then "true" else "false"
  | JSVal.vfunc name => "[Function: " ++ (if name = "" then "anonymous" else name) ++ "]"
  | JSVal.vobj j => jsonStringify 0 j
  | JSVal.vcyclic => "[object Object]"

/-- `formatConsoleArgs` (`src/hermes-globals.js` lines 3–25): map each
argument through the per-value branch and join with `" "`. -/
def formatConsoleArgs (args : List JSVal) : String :=
  String.intercalate " " (args.map formatArg)

/-- The line `console.log` hands to `print` (lines 28–30). -/
def consoleLogLine (args : List JSVal) : String :=
  formatConsoleArgs args

/-- The line `console.error` hands to `print` (lines 31–33). -/
def consoleErrorLine (args : List JSVal) : String :=
  "ERROR: " ++ formatConsoleArgs args

/-- The line `console.warn` hands to `print` (lines 34–36). -/
def consoleWarnLine (args : List JSVal) : String :=
  "WARN: " ++ formatConsoleArgs args

/-! ## Elapsed-time timer labels (`console.time` / `timeEnd` / `timeLog`) -/

/-- The `_timers` map: elapsed-time label to captured start instant. -/
abbrev TimerMap := List (String × Int)

/-- `Map.set`: replace the value at an existing key, else append the pair. -/
def mapSet (k : String) (v : Int) (m : List (String × Int)) : List (String × Int) :=
  if (m.lookup k).isSome then
    m.map (fun p => if p.1 = k then (k, v) else p)
  else
    m ++ [(k, v)]

/-- `Map.delete`: drop the key (keys of a JS `Map` are unique). -/
def mapDelete (k : String) (m : List (String × Int)) : List (String × Int) :=
  m.filter (fun p => p.1 ≠ k)

/-- The `label || "default"` computation shared by `console.time`,
`console.timeEnd` and `console.timeLog` (lines 41, 47, 61): an absent
label or the empty string (the falsy strings) fall back to `"default"`. -/
def timerKey : Option String → String
  | none => "default"
  | some s => if s = "" then "default" else s

/-- `console.time(label)` (lines 37–42): record the current reading under
`label || "default"`. -/
def consoleTime (label : Option String) (now : Int) (timers : TimerMap) : TimerMap :=
  mapSet (timerKey label) now timers

/-- Output lines and updated timer map produced by `console.timeEnd` or
`console.timeLog`.  Both JS functions return `undefined`, so no result
value is modelled. -/
structure TimerEffect where
  output : List String
  timers : TimerMap

/-- `console.timeEnd(label)` (lines 43–56): if the key has a start
instant, print `key: <now - start>ms` and delete the key; otherwise print
`Timer '<key>' does not exist` (via the plain `print` primitive, line 54)
and leave the map unchanged. -/
def consoleTimeEnd (label : Option String) (now : Int) (timers : TimerMap) : TimerEffect :=
  let key := timerKey label
  match timers.lookup key with
  | some startTime =>
      { output := [key ++ ": " ++ toString (now - startTime) ++ "ms"],
        timers := mapDelete key timers }
  | none =>
      { output := ["Timer '" ++ key ++ "' does not exist"], timers := timers }

/-- `console.timeLog(label, ...data)` (lines 57–70): like `timeEnd` but
the key is kept, and extra data (already joined by `data.join(" ")` in
the source; the joined pieces are modelled as strings) is appended after
a space when present. -/
def consoleTimeLog (label : Option String) (data : List String) (now : Int)
    (timers : TimerMap) : TimerEffect :=
  let key := timerKey label
  match timers.lookup key with
  | some startTime =>
      let message := if data.length > 0 then " " ++ String.intercalate " " data else ""
      { output := [key ++ ": " ++ toString (now - startTime) ++ "ms" ++ message],
        timers := timers }
  | none =>
      { output := ["Timer '" ++ key ++ "' does not exist"], timers := timers }

/-! ## Process descriptor -/

/-- `process.exit(code)` (lines 77–79) always throws
`new Error("Process exit: " + (code || 0))`; the thrown error's message is
the function's entire observable behaviour, so the model returns it.
`code || 0` replaces a falsy code (absent, `undefined`, or `0`) by `0`. -/
def processExitMessage (code : Option Int) : String :=
  "Process exit: " ++ toString (match code with
    | none => (0 : Int)
    | some c => if c = 0 then 0 else c)

/-! ## Interval scheduler: handle allocation and cancellation -/

/-- Process-wide interval bookkeeping (`src/hermes-globals.js` lines
82–123): `nextId` is `_intervalId`, `registry` the key set of the
`_intervals` map in insertion order, and `flags` records each issued
handle's closure-captured `active` flag. -/
structure SchedState where
  nextId : Nat
  registry : List Nat
  flags : List (Nat × Bool)
deriving Repr, DecidableEq

/-- The state installed at load time (lines 83–84): empty registry,
`_intervalId = 1`. -/
def initSched : SchedState :=
  { nextId := 1, registry := [], flags := [] }

/-- The registration part of `setInterval` (lines 86–115): take the
current `_intervalId` as the handle, post-increment the counter, record
the handle in `_intervals` with its `active` flag set.  Returns the
handle and the new state.  (The callback, delay and first `setTimeout`
do not touch the counter or registry and are modelled separately by
`IntervalRun`.) -/
def registerInterval (s : SchedState) : Nat × SchedState :=
  (s.nextId,
   { nextId := s.nextId + 1,
     registry := s.registry ++ [s.nextId],
     flags := s.flags ++ [(s.nextId, true)] })

/-- `clearInterval(id)` (lines 117–123): only when `id` is a key of
`_intervals`, call the stored `stop` closure (clearing that handle's
`active` flag) and delete the key; otherwise do nothing.  The function
prints nothing and throws nothing in either case. -/
def clearIntervalOp (id : Nat) (s : SchedState) : SchedState :=
  if id ∈ s.registry then
    { s with
      registry := s.registry.filter (fun x => x ≠ id),
      flags := s.flags.map (fun p => if p.1 = id then (p.1, false) else p) }
  else s

/-- A user-visible scheduler operation: one `setInterval` registration or
one `clearInterval` call. -/
inductive SchedOp where
  | register
  | clear (id : Nat)

/-- Run a sequence of scheduler operations, collecting the handle each
`setInterval` call returns. -/
def runOps (s : SchedState) : List SchedOp → List Nat
  | [] => []
  | SchedOp.register :: rest =>
      let r := registerInterval s
      r.1 :: runOps r.2 rest
  | SchedOp.clear i :: rest => runOps (clearIntervalOp i s) rest

/-- Number of `setInterval` registrations in an operation sequence. -/
def countRegisters (ops : List SchedOp) : Nat :=
  ops.countP (fun o => match o with | SchedOp.register => true | _ => false)

/-! ## One interval's firing loop (the `repeat` closure, lines 90–102)

The scenario of the cancellation-during-callback property: a single
interval whose callback increments a counter and, on its 3rd invocation,
calls `clearInterval` on its own handle.  The host's one-shot `setTimeout`
queue for this interval is the `pending` flag; `stepFire` is the engine
firing the queued one-shot (after the registered delay), a no-op when
nothing is queued.  The delay only shifts firings in wall-clock time and
is carried unchanged. -/
structure IntervalRun where
  delay : Nat
  active : Bool
  inRegistry : Bool
  pending : Bool
  count : Nat
deriving Repr, DecidableEq

/-- State right after `setInterval(callback, D)` returns (lines 86–115):
flag set, handle registered, first one-shot queued, no invocations yet. -/
def intervalStart (D : Nat) : IntervalRun :=
  { delay := D, active := true, inRegistry := true, pending := true, count := 0 }

/-- The callback's own `clearInterval(id)` on its handle: transcription of
lines 117–123 for this single interval. -/
def selfClear (r : IntervalRun) : IntervalRun :=
  if r.inRegistry then { r with active := false, inRegistry := false } else r

/-- One firing of the queued `repeat` one-shot (lines 90–102): if nothing
is queued nothing happens; otherwise the one-shot is consumed, and
`repeat` runs: if `active` is cleared it declines to invoke the callback
and declines to reschedule; if set, the callback runs (incrementing the
count, and clearing the interval when the new count is 3), then — only if
`active` is still set after the invocation — the next one-shot is
queued. -/
def stepFire (r : IntervalRun) : IntervalRun :=
  if r.pending then
    let r1 := { r with pending := false }
    if r1.active then
      let r2 := { r1 with count := r1.count + 1 }
      let r3 := if r2.count = 3 then selfClear r2 else r2
      if r3.active then { r3 with pending := true } else r3
    else r1
  else r

/-! ## Performance instrumentation -/

/-- The `_performanceMarks` map: mark name to wall-clock reading. -/
abbrev MarkMap := List (String × Int)

/-- `performance.mark(name)` (lines 137–142): record the current reading
under `name`, overwriting any prior mark. -/
def performanceMark (name : String) (now : Int) (marks : MarkMap) : MarkMap :=
  mapSet name now marks

/-- The record `performance.measure` returns on success (lines 153–159). -/
structure PerformanceMeasure where
  name : String
  duration : Int
  startTime : Int
  entryType : String
  detail : Option Int
deriving Repr, DecidableEq

/-- Output lines, returned value (`none` models the `return null`), and
resulting mark map of one `performance.measure` call. -/
structure MeasureEffect where
  output : List String
  result : Option PerformanceMeasure
  marks : MarkMap

/-- `performance.measure(name, startMark, endMark)` (lines 143–166): look
up both marks; when both exist, log `name: <end - start>ms` through
`console.log` and return the measure record; when either is missing,
report one line through `console.error` and return `null`.  The mark map
is never modified. -/
def performanceMeasure (name startMark endMark : String) (marks : MarkMap) : MeasureEffect :=
  match marks.lookup startMark, marks.lookup endMark with
  | some start, some stop =>
      let duration := stop - start
      { output := [consoleLogLine [JSVal.vstr (name ++ ": " ++ toString duration ++ "ms")]],
        result := some { name := name, duration := duration, startTime := start,
                         entryType := "measure", detail := none },
        marks := marks }
  | _, _ =>
      { output := [consoleErrorLine
          [JSVal.vstr ("Performance marks '" ++ startMark ++ "' or '" ++ endMark ++ "' not found")]],
        result := none,
        marks := marks }

/-! ## Benchmark helper -/

/-- `Math.min(...l)` for a non-empty list (the empty case, which JS maps
to `Infinity`, is unreachable under the claims' `N ≥ 1` premise and
defaulted to `0`). -/
def jsMin : List Int → Int
  | [] => 0
  | x :: xs => xs.foldl min x

/-- `Math.max(...l)` for a non-empty list (empty case defaulted). -/
def jsMax : List Int → Int
  | [] => 0
  | x :: xs => xs.foldl max x

/-- The record `benchmark` returns (line 202).  `average = total / iterations`
is JS number division, modelled exactly over `ℚ`. -/
structure BenchmarkResult where
  name : String
  iterations : Nat
  total : Int
  average : ℚ
  min : Int
  max : Int
  results : List Int
deriving Repr, DecidableEq

/-- `benchmark(name, fn, iterations)` (lines 180–203): run the callback
`iterations` times sequentially; iteration `i` reads the clock before and
after the call (`clock (2*i)` and `clock (2*i+1)` are those successive
`Date.now()` readings) and records the difference.  Then `total` folds
`+` over the results, `average` is `total / iterations`, and `min`/`max`
spread the results through `Math.min`/`Math.max`. -/
def benchmark (name : String) (clock : Nat → Int) (iterations : Nat) : BenchmarkResult :=
  let results := (List.range iterations).map (fun i => clock (2 * i + 1) - clock (2 * i))
  let total := results.foldl (· + ·) 0
  { name := name,
    iterations := iterations,
    total := total,
    average := (total : ℚ) / (iterations : ℚ),
    min := jsMin results,
    max := jsMax results,
    results := results }

/-! ## Helper lemmas on the association-list map operations -/

theorem lookup_map_replace (k : String) (v : Int) :
    ∀ m : List (String × Int),
      (m.map (fun p => if p.1 = k then (k, v) else p)).lookup k =
        if (m.lookup k).isSome then some v else none := by
  intro m
  induction m with
  | nil => simp
  | cons p rest ih =>
    obtain ⟨a, b⟩ := p
    by_cases h : a = k
    · subst h
      simp [List.lookup_cons]
    · rw [List.map_cons, if_neg h, List.lookup_cons, List.lookup_cons,
          beq_false_of_ne (Ne.symm h)]
      exact ih

theorem lookup_append_single (k : String) (v : Int) :
    ∀ m : List (String × Int), m.lookup k = none →
      (m ++ [(k, v)]).lookup k = some v := by
  intro m
  induction m with
  | nil => intro _; simp [List.lookup_cons]
  | cons p rest ih =>
    obtain ⟨a, b⟩ := p
    intro h
    rw [List.lookup_cons] at h
    cases hbeq : (k == a) with
    | true => simp [hbeq] at h
    | false =>
      rw [hbeq] at h
      simp only [List.cons_append, List.lookup_cons, hbeq]
      exact ih h

theorem lookup_mapSet (k : String) (v : Int) (m : List (String × Int)) :
    (mapSet k v m).lookup k = some v := by
  by_cases h : (m.lookup k).isSome
  · simp [mapSet, h, lookup_map_replace]
  · have hn : m.lookup k = none := by
      cases hm : m.lookup k
      · rfl
      · simp [hm] at h
    simp [mapSet, h]
    exact lookup_append_single k v m hn

theorem lookup_mapDelete (k : String) :
    ∀ m : List (String × Int), (mapDelete k m).lookup k = none := by
  intro m
  induction m with
  | nil => rfl
  | cons p rest ih =>
    obtain ⟨a, b⟩ := p
    by_cases h : a = k
    · simpa [mapDelete, List.filter_cons, h] using ih
    · simpa [mapDelete, List.filter_cons, h, List.lookup_cons,
             beq_false_of_ne (Ne.symm h)] using ih

/-! ## C3: the console formatter's per-value map and joining -/

/-- C3: the console formatter maps each value independently — `null` to
`"null"`, `undefined` to `"undefined"`, a string to itself, a number or
boolean to its default string conversion, a function to
`[Function: <name>]` with `anonymous` for an empty name, an object to its
2-space-indented structural serialization (checked against a concrete
nested object), a failing serialization to `"[object Object]"` — and
joins the per-value results with a single space. -/
theorem formatConsoleArgs_per_value_spec :
    formatArg JSVal.vnull = "null" ∧
    formatArg JSVal.vundefined = "undefined" ∧
    (∀ s, formatArg (JSVal.vstr s) = s) ∧
    (∀ n : Int, formatArg (JSVal.vnum n) = toString n) ∧
    (∀ b : Bool, formatArg (JSVal.vbool b) = (if b then "true" else "false")) ∧
    (∀ nm : String, nm ≠ "" → formatArg (JSVal.vfunc nm) = "[Function: " ++ nm ++ "]") ∧
    formatArg (JSVal.vfunc "") = "[Function: anonymous]" ∧
    (∀ j : Json, formatArg (JSVal.vobj j) = jsonStringify 0 j) ∧
    formatArg (JSVal.vobj (Json.jobj [("a", Json.jnum 1), ("b", Json.jarr [Json.jnum 2, Json.jnum 3])]))
      = "\x7b\n  \"a\": 1,\n  \"b\": [\n    2,\n    3\n  ]\n\x7d" ∧
    formatArg JSVal.vcyclic = "[object Object]" ∧
    (∀ args : List JSVal, formatConsoleArgs args = String.intercalate " " (args.map formatArg)) := by
  refine ⟨rfl, rfl, fun _ => rfl, fun _ => rfl, fun _ => rfl, ?_, rfl, fun _ => rfl, rfl, rfl,
          fun _ => rfl⟩
  intro nm h
  simp [formatArg, h]

/-- Witness for C3: the named-function clause at the concrete name `"f"`. -/
theorem formatConsoleArgs_per_value_spec_witness :
    formatArg (JSVal.vfunc "f") = "[Function: " ++ "f" ++ "]" :=
  formatConsoleArgs_per_value_spec.2.2.2.2.2.1 "f" (by decide)

/-! ## C8: the three console entry points differ only in the prefix -/

/-- C8: for every argument sequence, the error-log line is exactly
`"ERROR: "` prepended to the plain-log line, and the warning-log line is
exactly `"WARN: "` prepended to it — all three entry points share the
formatting algorithm `formatConsoleArgs` and differ only in the prefix. -/
theorem console_entry_points_prefix_relation :
    (∀ args : List JSVal, consoleErrorLine args = "ERROR: " ++ consoleLogLine args) ∧
    (∀ args : List JSVal, consoleWarnLine args = "WARN: " ++ consoleLogLine args) ∧
    (∀ args : List JSVal, consoleLogLine args = formatConsoleArgs args) :=
  ⟨fun _ => rfl, fun _ => rfl, fun _ => rfl⟩

/-! ## C10: `process.exit` message -/

/-- C10: `process.exit` always throws an error whose message is
`"Process exit: "` followed by the requested code, and every falsy code —
`0` or an absent argument — yields the identical message
`"Process exit: 0"`, so the error cannot distinguish `exit(0)` from
`exit()`. -/
theorem processExit_message_spec :
    (∀ c : Int, processExitMessage (some c) = "Process exit: " ++ toString c) ∧
    processExitMessage none = "Process exit: 0" ∧
    processExitMessage (some 0) = "Process exit: 0" ∧
    processExitMessage none = processExitMessage (some 0) := by
  refine ⟨?_, rfl, rfl, rfl⟩
  intro c
  by_cases h : c = 0 <;> simp [processExitMessage, h]

/-! ## C2: missing elapsed-time label on `timeEnd` / `timeLog` -/

/-- Counterexample to C2 as stated: with no active start for label `"x"`,
`console.timeEnd` and `console.timeLog` do report
`Timer 'x' does not exist`, but they hand the line to the plain `print`
primitive directly: the emitted line does not carry the `"ERROR: "` prefix
that every line of the error-log entry point `consoleErrorLine` starts
with, so the report is not on the error-console path. -/
theorem timeEnd_missing_label_not_error_path :
    (consoleTimeEnd (some "x") 5 []).output = ["Timer 'x' does not exist"] ∧
    (consoleTimeLog (some "x") [] 5 []).output = ["Timer 'x' does not exist"] ∧
    ("Timer 'x' does not exist").take 7 ≠ "ERROR: " ∧
    (consoleErrorLine [JSVal.vstr "Timer 'x' does not exist"]).take 7 = "ERROR: " :=
  ⟨rfl, rfl, by decide, by decide⟩

/-- C2 amended: for every label with no active start, `console.timeEnd`
and `console.timeLog` report the line `Timer '<label>' does not exist` on
the plain print path (without the error-log `"ERROR: "` prefix), return no
value rather than raising, and leave the label map unchanged. -/
theorem timeEnd_missing_label_spec (label : Option String) (now : Int)
    (timers : TimerMap) (data : List String)
    (h : timers.lookup (timerKey label) = none) :
    (consoleTimeEnd label now timers).output =
      ["Timer '" ++ timerKey label ++ "' does not exist"] ∧
    (consoleTimeEnd label now timers).timers = timers ∧
    (consoleTimeLog label data now timers).output =
      ["Timer '" ++ timerKey label ++ "' does not exist"] ∧
    (consoleTimeLog label data now timers).timers = timers ∧
    (∀ line ∈ (consoleTimeEnd label now timers).output, line.take 7 ≠ "ERROR: ") := by
  have hEnd : consoleTimeEnd label now timers =
      { output := ["Timer '" ++ timerKey label ++ "' does not exist"], timers := timers } := by
    simp only [consoleTimeEnd, h]
  have hLog : consoleTimeLog label data now timers =
      { output := ["Timer '" ++ timerKey label ++ "' does not exist"], timers := timers } := by
    simp only [consoleTimeLog, h]
  have htake : ("Timer '" ++ timerKey label ++ "' does not exist").take 7 = "Timer '" := by
    have hassoc : "Timer '" ++ timerKey label ++ "' does not exist" =
        "Timer '" ++ (timerKey label ++ "' does not exist") := by
      rw [String.append_assoc]
    rw [hassoc]
    apply String.ext
    rw [String.data_take, String.data_append]
    exact List.take_left' (by decide)
  refine ⟨by rw [hEnd], by rw [hEnd], by rw [hLog], by rw [hLog], ?_⟩
  intro line hline
  rw [hEnd] at hline
  simp only [List.mem_singleton] at hline
  subst hline
  rw [htake]
  decide

/-- Witness for C2's amended theorem at label `"y"`, time `7`, the empty
map and data `["a"]`. -/
theorem timeEnd_missing_label_spec_witness :
    (consoleTimeEnd (some "y") 7 []).output = ["Timer 'y' does not exist"] ∧
    (consoleTimeEnd (some "y") 7 []).timers = [] ∧
    (consoleTimeLog (some "y") ["a"] 7 []).output = ["Timer 'y' does not exist"] ∧
    (consoleTimeLog (some "y") ["a"] 7 []).timers = [] ∧
    (∀ line ∈ (consoleTimeEnd (some "y") 7 []).output, line.take 7 ≠ "ERROR: ") :=
  timeEnd_missing_label_spec (some "y") 7 [] ["a"] (by decide)

/-! ## C9: the falsy-label fallback key `"default"` -/

theorem take_seven_error_prefix (x : String) : ("ERROR: " ++ x).take 7 = "ERROR: " := by
  apply String.ext
  rw [String.data_take, String.data_append]
  exact List.take_left' (by decide)

/-- C9: `console.time`, `timeEnd` and `timeLog` map an absent or falsy
(empty-string) label to the single fixed key `"default"`: a
`console.time()` with no argument starts the label that `timeEnd()` with
no argument ends and removes, and the report line begins `default: `. -/
theorem console_default_label_spec :
    timerKey none = "default" ∧
    timerKey (some "") = "default" ∧
    (∀ (t0 t1 : Int) (timers : TimerMap),
      (consoleTimeEnd none t1 (consoleTime none t0 timers)).output =
        ["default: " ++ toString (t1 - t0) ++ "ms"] ∧
      (consoleTimeEnd none t1 (consoleTime none t0 timers)).timers.lookup "default" = none ∧
      (consoleTimeLog (some "") [] t1 (consoleTime none t0 timers)).output =
        ["default: " ++ toString (t1 - t0) ++ "ms"]) := by
  refine ⟨rfl, rfl, ?_⟩
  intro t0 t1 timers
  have hl : (consoleTime none t0 timers).lookup "default" = some t0 := by
    simpa [consoleTime, timerKey] using lookup_mapSet "default" t0 timers
  refine ⟨?_, ?_, ?_⟩
  · simp [consoleTimeEnd, timerKey, hl]
  · simp [consoleTimeEnd, timerKey, hl]
    simpa using lookup_mapDelete "default" (consoleTime none t0 timers)
  · simp [consoleTimeLog, timerKey, hl]

/-! ## C4: `performance.measure` -/

theorem consoleLogLine_single (x : String) : consoleLogLine [JSVal.vstr x] = x := rfl

theorem consoleErrorLine_single (x : String) :
    consoleErrorLine [JSVal.vstr x] = "ERROR: " ++ x := rfl

/-- C4: when both marks exist, `performance.measure(name, s, e)` reports
`<name>: <duration>ms` with `duration` the end reading minus the start
reading, and returns a record with that name and duration, `startTime`
the start reading, the fixed `entryType` tag `"measure"`, and an empty
`detail`; when either mark is missing it emits exactly one line, that
line carries the error-console `"ERROR: "` prefix, the result is absent,
and in both cases the mark map is left unchanged and nothing is thrown
(the model is a total function). -/
theorem performanceMeasure_spec (name s e : String) (marks : MarkMap) :
    (∀ a b : Int, marks.lookup s = some a → marks.lookup e = some b →
      (performanceMeasure name s e marks).output = [name ++ ": " ++ toString (b - a) ++ "ms"] ∧
      (performanceMeasure name s e marks).result =
        some { name := name, duration := b - a, startTime := a,
               entryType := "measure", detail := none } ∧
      (performanceMeasure name s e marks).marks = marks) ∧
    ((marks.lookup s = none ∨ marks.lookup e = none) →
      (performanceMeasure name s e marks).output.length = 1 ∧
      (performanceMeasure name s e marks).output =
        ["ERROR: " ++ ("Performance marks '" ++ s ++ "' or '" ++ e ++ "' not found")] ∧
      (∀ line ∈ (performanceMeasure name s e marks).output, line.take 7 = "ERROR: ") ∧
      (performanceMeasure name s e marks).result = none ∧
      (performanceMeasure name s e marks).marks = marks) := by
  constructor
  · intro a b hs he
    refine ⟨?_, ?_, ?_⟩ <;> simp [performanceMeasure, hs, he, consoleLogLine_single]
  · intro h
    have hred : performanceMeasure name s e marks =
        { output := ["ERROR: " ++
            ("Performance marks '" ++ s ++ "' or '" ++ e ++ "' not found")],
          result := none, marks := marks } := by
      rcases h with h | h
      · cases he : marks.lookup e <;>
          simp [performanceMeasure, h, he, consoleErrorLine_single]
      · cases hs : marks.lookup s <;>
          simp [performanceMeasure, h, hs, consoleErrorLine_single]
    rw [hred]
    refine ⟨rfl, rfl, ?_, rfl, rfl⟩
    intro line hline
    simp only [List.mem_singleton] at hline
    subst hline
    exact take_seven_error_prefix _

/-- Witness for C4 over the mark map `[("a", 10), ("b", 25)]`: measuring
`a → b` succeeds with duration `15`, measuring against the unknown mark
`"c"` yields one error line and no result. -/
theorem performanceMeasure_spec_witness :
    (performanceMeasure "m" "a" "b" [("a", 10), ("b", 25)]).output = ["m: 15ms"] ∧
    (performanceMeasure "m" "a" "b" [("a", 10), ("b", 25)]).result =
      some { name := "m", duration := 15, startTime := 10,
             entryType := "measure", detail := none } ∧
    (performanceMeasure "m" "a" "b" [("a", 10), ("b", 25)]).marks = [("a", 10), ("b", 25)] ∧
    (performanceMeasure "m" "a" "c" [("a", 10), ("b", 25)]).output.length = 1 ∧
    (performanceMeasure "m" "a" "c" [("a", 10), ("b", 25)]).result = none ∧
    (performanceMeasure "m" "a" "c" [("a", 10), ("b", 25)]).marks = [("a", 10), ("b", 25)] := by
  have hok := (performanceMeasure_spec "m" "a" "b" [("a", 10), ("b", 25)]).1 10 25
    (by decide) (by decide)
  have hbad := (performanceMeasure_spec "m" "a" "c" [("a", 10), ("b", 25)]).2
    (Or.inr (by decide))
  refine ⟨?_, ?_, hok.2.2, hbad.1, hbad.2.2.2.1, hbad.2.2.2.2⟩
  · rw [hok.1]
    decide
  · rw [hok.2.1]
    decide

/-! ## C7: `clearInterval` on unknown or already-cancelled handles -/

/-- C7: `clearInterval` with a handle that was never issued or was
already cancelled is a no-op.  An unknown handle (one not in the
registry) leaves the whole scheduler state — every other handle's
registry entry and active flag included — unchanged, and a second
`clearInterval` on the same handle behaves exactly like the first, so
repeating a cancellation changes nothing further.  The operation prints
nothing and throws nothing in the model (it is a total function into
states). -/
theorem clearIntervalOp_not_mem (id : Nat) (u : SchedState) (h : id ∉ u.registry) :
    clearIntervalOp id u = u := by
  simp [clearIntervalOp, h]

theorem clearInterval_noop_spec (s : SchedState) (id : Nat)
    (hunknown : id ∉ s.registry) :
    clearIntervalOp id s = s ∧
    (∀ t : SchedState, clearIntervalOp id (clearIntervalOp id t) = clearIntervalOp id t) := by
  constructor
  · exact clearIntervalOp_not_mem id s hunknown
  · intro t
    by_cases h : id ∈ t.registry
    · apply clearIntervalOp_not_mem
      simp [clearIntervalOp, h, List.mem_filter]
    · rw [clearIntervalOp_not_mem id t h, clearIntervalOp_not_mem id t h]

/-- Witness for C7: handle `1` was never issued in a state that only
knows handle `2`; clearing it changes nothing, and double-clearing any
handle equals clearing it once. -/
theorem clearInterval_noop_spec_witness :
    clearIntervalOp 1 { nextId := 3, registry := [2], flags := [(2, true)] } =
      { nextId := 3, registry := [2], flags := [(2, true)] } ∧
    (∀ t : SchedState, clearIntervalOp 1 (clearIntervalOp 1 t) = clearIntervalOp 1 t) :=
  clearInterval_noop_spec { nextId := 3, registry := [2], flags := [(2, true)] } 1 (by decide)

/-! ## C6: handles are 1, 2, 3, … — strictly increasing, never reused -/

theorem clearIntervalOp_nextId (id : Nat) (s : SchedState) :
    (clearIntervalOp id s).nextId = s.nextId := by
  by_cases h : id ∈ s.registry <;> simp [clearIntervalOp, h]

theorem runOps_eq_range' :
    ∀ (ops : List SchedOp) (s : SchedState),
      runOps s ops = List.range' s.nextId (countRegisters ops) := by
  intro ops
  induction ops with
  | nil => intro s; rfl
  | cons op rest ih =>
    intro s
    cases op with
    | register =>
      have hc : countRegisters (SchedOp.register :: rest) = countRegisters rest + 1 := by
        simp [countRegisters]
      rw [hc]
      show s.nextId :: runOps _ rest = List.range' s.nextId (countRegisters rest + 1)
      rw [ih]
      rfl
    | clear i =>
      have hc : countRegisters (SchedOp.clear i :: rest) = countRegisters rest := by
        simp [countRegisters]
      rw [hc]
      show runOps (clearIntervalOp i s) rest = _
      rw [ih, clearIntervalOp_nextId]

theorem pairwise_lt_range'_one :
    ∀ (n s : Nat), (List.range' s n).Pairwise (· < ·) := by
  intro n
  induction n with
  | zero => intro s; exact List.Pairwise.nil
  | succ m ih =>
    intro s
    refine List.Pairwise.cons ?_ (ih (s + 1))
    intro x hx
    have := (List.mem_range'_1).1 hx
    omega

/-- C6: from the initial scheduler state, the handles returned by any
sequence of `setInterval` registrations (with arbitrary interleaved
`clearInterval` calls) are exactly `1, 2, 3, …` in order: the list of
returned handles is `List.range' 1 k` for `k` registrations, each handle
is strictly greater than every earlier one, and no handle is ever
reused. -/
theorem interval_handles_spec (ops : List SchedOp) :
    runOps initSched ops = List.range' 1 (countRegisters ops) ∧
    (runOps initSched ops).Pairwise (· < ·) ∧
    (runOps initSched ops).Nodup := by
  have h := runOps_eq_range' ops initSched
  have hp : (runOps initSched ops).Pairwise (· < ·) := by
    rw [h]
    exact pairwise_lt_range'_one _ _
  exact ⟨h, hp, hp.imp Nat.ne_of_lt⟩

/-! ## C5: the benchmark helper's returned statistics -/

theorem foldl_add_eq_add_sum (l : List Int) :
    ∀ a : Int, l.foldl (· + ·) a = a + l.sum := by
  induction l with
  | nil => intro a; simp
  | cons x xs ih =>
    intro a
    simp only [List.foldl_cons, List.sum_cons, ih]
    ring

theorem foldl_min_le_init (l : List Int) : ∀ a : Int, l.foldl min a ≤ a := by
  induction l with
  | nil => intro a; simp
  | cons x xs ih =>
    intro a
    calc (x :: xs).foldl min a = xs.foldl min (min a x) := by simp
    _ ≤ min a x := ih (min a x)
    _ ≤ a := min_le_left a x

theorem foldl_min_le_mem (l : List Int) :
    ∀ a : Int, ∀ x ∈ l, l.foldl min a ≤ x := by
  induction l with
  | nil => intro a x hx; simp at hx
  | cons y ys ih =>
    intro a x hx
    rcases List.mem_cons.1 hx with h | h
    · subst h
      calc (x :: ys).foldl min a = ys.foldl min (min a x) := by simp
      _ ≤ min a x := foldl_min_le_init ys (min a x)
      _ ≤ x := min_le_right a x
    · calc (y :: ys).foldl min a = ys.foldl min (min a y) := by simp
      _ ≤ x := ih (min a y) x h

theorem foldl_min_mem (l : List Int) :
    ∀ a : Int, l.foldl min a = a ∨ l.foldl min a ∈ l := by
  induction l with
  | nil => intro a; exact Or.inl rfl
  | cons y ys ih =>
    intro a
    have hstep : (y :: ys).foldl min a = ys.foldl min (min a y) := by simp
    rcases ih (min a y) with h | h
    · rcases min_cases a y with ⟨hm, _⟩ | ⟨hm, _⟩
      · exact Or.inl (by rw [hstep, h, hm])
      · exact Or.inr (by rw [hstep, h, hm]; exact List.mem_cons_self y ys)
    · exact Or.inr (by rw [hstep]; exact List.mem_cons_of_mem y h)

theorem foldl_max_init_le (l : List Int) : ∀ a : Int, a ≤ l.foldl max a := by
  induction l with
  | nil => intro a; simp
  | cons x xs ih =>
    intro a
    calc a ≤ max a x := le_max_left a x
    _ ≤ xs.foldl max (max a x) := ih (max a x)
    _ = (x :: xs).foldl max a := by simp

theorem foldl_max_mem_le (l : List Int) :
    ∀ a : Int, ∀ x ∈ l, x ≤ l.foldl max a := by
  induction l with
  | nil => intro a x hx; simp at hx
  | cons y ys ih =>
    intro a x hx
    rcases List.mem_cons.1 hx with h | h
    · subst h
      calc x ≤ max a x := le_max_right a x
      _ ≤ ys.foldl max (max a x) := foldl_max_init_le ys (max a x)
      _ = (x :: ys).foldl max a := by simp
    · calc x ≤ ys.foldl max (max a y) := ih (max a y) x h
      _ = (y :: ys).foldl max a := by simp

theorem foldl_max_mem (l : List Int) :
    ∀ a : Int, l.foldl max a = a ∨ l.foldl max a ∈ l := by
  induction l with
  | nil => intro a; exact Or.inl rfl
  | cons y ys ih =>
    intro a
    have hstep : (y :: ys).foldl max a = ys.foldl max (max a y) := by simp
    rcases ih (max a y) with h | h
    · rcases max_cases a y with ⟨hm, _⟩ | ⟨hm, _⟩
      · exact Or.inl (by rw [hstep, h, hm])
      · exact Or.inr (by rw [hstep, h, hm]; exact List.mem_cons_self y ys)
    · exact Or.inr (by rw [hstep]; exact List.mem_cons_of_mem y h)

theorem jsMin_mem (l : List Int) (h : l ≠ []) : jsMin l ∈ l := by
  cases l with
  | nil => exact absurd rfl h
  | cons x xs =>
    rcases foldl_min_mem xs x with h1 | h1
    · rw [jsMin, h1]; exact List.mem_cons_self x xs
    · rw [jsMin]; exact List.mem_cons_of_mem x h1

theorem jsMin_le (l : List Int) : ∀ x ∈ l, jsMin l ≤ x := by
  cases l with
  | nil => intro x hx; simp at hx
  | cons y ys =>
    intro x hx
    rcases List.mem_cons.1 hx with h | h
    · subst h
      rw [jsMin]
      exact foldl_min_le_init ys x
    · rw [jsMin]
      exact foldl_min_le_mem ys y x h

theorem jsMax_mem (l : List Int) (h : l ≠ []) : jsMax l ∈ l := by
  cases l with
  | nil => exact absurd rfl h
  | cons x xs =>
    rcases foldl_max_mem xs x with h1 | h1
    · rw [jsMax, h1]; exact List.mem_cons_self x xs
    · rw [jsMax]; exact List.mem_cons_of_mem x h1

theorem jsMax_ge (l : List Int) : ∀ x ∈ l, x ≤ jsMax l := by
  cases l with
  | nil => intro x hx; simp at hx
  | cons y ys =>
    intro x hx
    rcases List.mem_cons.1 hx with h | h
    · subst h
      rw [jsMax]
      exact foldl_max_init_le ys x
    · rw [jsMax]
      exact foldl_max_mem_le ys y x h

/-- C5: for every name, clock behaviour and iteration count `N ≥ 1`,
`benchmark` produces a per-iteration duration sequence of length exactly
`N` (the callback runs once per iteration), a `total` equal to the exact
sum of that sequence, an `average` equal to `total / N`, and `min` and
`max` equal to the minimum and maximum of the sequence (they belong to
the sequence and bound every element). -/
theorem benchmark_spec (name : String) (clock : Nat → Int) (N : Nat) (hN : 1 ≤ N) :
    (benchmark name clock N).results.length = N ∧
    (benchmark name clock N).iterations = N ∧
    (benchmark name clock N).total = (benchmark name clock N).results.sum ∧
    (benchmark name clock N).average = ((benchmark name clock N).total : ℚ) / (N : ℚ) ∧
    (benchmark name clock N).min ∈ (benchmark name clock N).results ∧
    (benchmark name clock N).max ∈ (benchmark name clock N).results ∧
    (∀ x ∈ (benchmark name clock N).results,
      (benchmark name clock N).min ≤ x ∧ x ≤ (benchmark name clock N).max) := by
  have hres : (benchmark name clock N).results =
      (List.range N).map (fun i => clock (2 * i + 1) - clock (2 * i)) := rfl
  have hlen : (benchmark name clock N).results.length = N := by
    rw [hres]
    simp
  have hne : (benchmark name clock N).results ≠ [] := by
    intro hc
    rw [hc] at hlen
    simp at hlen
    omega
  have htotal : (benchmark name clock N).total = (benchmark name clock N).results.sum := by
    show ((benchmark name clock N).results.foldl (· + ·) 0) = _
    rw [foldl_add_eq_add_sum]
    ring
  refine ⟨hlen, rfl, htotal, rfl, ?_, ?_, ?_⟩
  · exact jsMin_mem _ hne
  · exact jsMax_mem _ hne
  · intro x hx
    exact ⟨jsMin_le _ x hx, jsMax_ge _ x hx⟩

/-- Witness for C5: the clock reading `k ↦ k²` over 3 iterations gives
durations `[1, 5, 9]`, total `15`, average `5`, min `1`, max `9`. -/
theorem benchmark_spec_witness :
    (benchmark "w" (fun k => (k : Int) * k) 3).results.length = 3 ∧
    (benchmark "w" (fun k => (k : Int) * k) 3).iterations = 3 ∧
    (benchmark "w" (fun k => (k : Int) * k) 3).total =
      (benchmark "w" (fun k => (k : Int) * k) 3).results.sum ∧
    (benchmark "w" (fun k => (k : Int) * k) 3).average =
      ((benchmark "w" (fun k => (k : Int) * k) 3).total : ℚ) / ((3 : Nat) : ℚ) ∧
    (benchmark "w" (fun k => (k : Int) * k) 3).min ∈
      (benchmark "w" (fun k => (k : Int) * k) 3).results ∧
    (benchmark "w" (fun k => (k : Int) * k) 3).max ∈
      (benchmark "w" (fun k => (k : Int) * k) 3).results ∧
    (∀ x ∈ (benchmark "w" (fun k => (k : Int) * k) 3).results,
      (benchmark "w" (fun k => (k : Int) * k) 3).min ≤ x ∧
      x ≤ (benchmark "w" (fun k => (k : Int) * k) 3).max) :=
  benchmark_spec "w" (fun k => (k : Int) * k) 3 (by decide)

/-! ## C1: cancellation from inside the callback on the 3rd firing -/

theorem stepFire_iterate_three (D : Nat) :
    stepFire^[3] (intervalStart D) =
      { delay := D, active := false, inRegistry := false, pending := false, count := 3 } := rfl

/-- C1: an interval registered with delay `D` whose callback clears its
own handle on its 3rd invocation fires exactly 3 times: after `n`
scheduler steps the invocation count is `min n 3` (so never a 4th), the
state is stationary from step 3 on no matter how long the process keeps
running, and any firing that observes a cleared active flag declines to
invoke the callback and declines to reschedule. -/
theorem interval_self_cancel_spec (D : Nat) :
    (∀ n : Nat, (stepFire^[n] (intervalStart D)).count = min n 3) ∧
    (∀ n : Nat, 3 ≤ n → stepFire^[n] (intervalStart D) = stepFire^[3] (intervalStart D)) ∧
    (∀ r : IntervalRun, r.active = false →
      (stepFire r).count = r.count ∧ (stepFire r).pending = false) := by
  have hfix : ∀ k : Nat,
      stepFire^[k] (stepFire^[3] (intervalStart D)) = stepFire^[3] (intervalStart D) := by
    intro k
    rw [stepFire_iterate_three]
    exact Function.iterate_fixed rfl k
  have hge : ∀ n : Nat, 3 ≤ n →
      stepFire^[n] (intervalStart D) = stepFire^[3] (intervalStart D) := by
    intro n hn
    obtain ⟨k, rfl⟩ : ∃ k, n = k + 3 := ⟨n - 3, by omega⟩
    rw [Function.iterate_add_apply]
    exact hfix k
  refine ⟨?_, hge, ?_⟩
  · intro n
    match n with
    | 0 => rfl
    | 1 => rfl
    | 2 => rfl
    | (k + 3) =>
      rw [hge (k + 3) (by omega), stepFire_iterate_three,
          Nat.min_eq_right (by omega : 3 ≤ k + 3)]
  · intro r h
    cases hp : r.pending with
    | false => exact ⟨by simp [stepFire, hp], by simp [stepFire, hp]⟩
    | true => exact ⟨by simp [stepFire, hp, h], by simp [stepFire, hp, h]⟩

/-- Witness for C1 at delay `7`: after 10 steps the count is still
`min 10 3 = 3` and the state equals the step-3 state; a firing with the
active flag already cleared (count `2`, one-shot pending) neither invokes
nor reschedules. -/
theorem interval_self_cancel_spec_witness :
    (stepFire^[10] (intervalStart 7)).count = min 10 3 ∧
    stepFire^[10] (intervalStart 7) = stepFire^[3] (intervalStart 7) ∧
    (stepFire { delay := 7, active := false, inRegistry := false,
                pending := true, count := 2 }).count = 2 ∧
    (stepFire { delay := 7, active := false, inRegistry := false,
                pending := true, count := 2 }).pending = false := by
  obtain ⟨h1, h2, h3⟩ := interval_self_cancel_spec 7
  obtain ⟨ha, hb⟩ := h3 { delay := 7, active := false, inRegistry := false,
                          pending := true, count := 2 } rfl
  exact ⟨h1 10, h2 10 (by decide), ha, hb⟩
